import Mathlib

/-!
Verification development for the esruntime repository.

The definitions below are a shallow embedding of the Rust sources:

* `crates/sdk/src/command.rs` — the query planner (`build_query_items`,
  `cartesian_product`), the command executor (`execute_with`,
  `execute_blocking_with`) and `CommandContext`;
* `crates/sdk/src/emit.rs` — `EmittedEvent::into_dcb_event` and the
  stored-payload encoding;
* `crates/postgres/src/lib.rs` — `ProjectionRunner` (`next`, `flush`,
  `flush_if_necessary`), `FlushConfig` and `CheckpointTable::save`.

Rust `HashMap`s have an unspecified iteration order.  Wherever the source
iterates a `HashMap`, the embedding keeps the map as an association list in
a canonical (insertion) order and takes the iteration order as an explicit
parameter; theorems quantify over all parameters that yield a permutation
of the entries, so they cover every iteration order the Rust code can see.
-/

namespace ESRuntime

/-- Tag string `"{field}:{value}"` (command.rs line 417, emit.rs line 116). -/
def tagStr (field value : String) : String := field ++ ":" ++ value

/-- `DomainIdBindings = HashMap<&str, Vec<String>>` (domain_id.rs line 9),
kept as an association list of its entries. -/
abbrev Bindings := List (String × List String)

/-- `bindings.contains_key(f)` (command.rs line 364). -/
def containsKey (b : Bindings) (k : String) : Bool := b.any (fun p => p.1 == k)

/-- `bindings.get(f)` (command.rs line 385). -/
def getKey (b : Bindings) (k : String) : Option (List String) :=
  (b.find? (fun p => p.1 == k)).map (·.2)

/-- `DCBQueryItem { tags, types }` (external store type, spec section 3). -/
structure DCBQueryItem where
  tags : List String
  types : List String
deriving DecidableEq, Repr

/-- `DCBQuery` is a disjunction of items (external store type). -/
structure DCBQuery where
  items : List DCBQueryItem
deriving DecidableEq, Repr

/-- Lexicographic order on character lists; on valid UTF-8, codepoint
order coincides with the byte-wise `str` order Rust's `sort` uses. -/
def charListLe : List Char → List Char → Bool
  | [], _ => true
  | _ :: _, [] => false
  | a :: as, b :: bs => if a < b then true else if a = b then charListLe as bs else false

/-- The string order used by `Vec::<&str>::sort` (command.rs line 367). -/
def strLe (a b : String) : Bool := charListLe a.data b.data

/-- One step of insertion sort, used to model `Vec::sort` on `Vec<&str>`
(command.rs line 367); over a total order the sorted permutation is unique,
so any correct sort yields this result. -/
def insertSorted (x : String) : List String → List String
  | [] => [x]
  | y :: ys => if strLe x y then x :: y :: ys else y :: insertSorted x ys

/-- `relevant_fields.sort()` (command.rs line 367). -/
def sortFields (l : List String) : List String := l.foldr insertSorted []

/-- `relevant_fields` for one event (command.rs lines 362-367): the declared
domain-id fields restricted to keys present in the bindings, sorted. -/
def relevant_fields (bindings : Bindings) (fields : List String) : List String :=
  sortFields (fields.filter (fun f => containsKey bindings f))

/-- `groups.entry(relevant_fields).or_default().push(event_type)`
(command.rs line 369): insert into the group map, appending the event type
to the existing group when the key is already present. -/
def insertGroup (groups : List (List String × List String)) (key : List String)
    (et : String) : List (List String × List String) :=
  match groups with
  | [] => [(key, [et])]
  | g :: rest =>
    if g.1 = key then (g.1, g.2 ++ [et]) :: rest else g :: insertGroup rest key et

/-- The group map of command.rs lines 358-370, with entries in insertion
order (a canonical representative of the `HashMap` contents). -/
def makeGroups (eventDomainIds : List (String × List String)) (bindings : Bindings) :
    List (List String × List String) :=
  eventDomainIds.foldl (fun gs p => insertGroup gs (relevant_fields bindings p.2) p.1) []

/-- Key dedup performed by collecting into a `HashMap` (command.rs lines
383-386): a later entry overwrites an earlier one with the same key; here
duplicate keys always carry the same value (`bindings.get(f)`), so keeping
the first occurrence is the same map. -/
def dedupFields : List String → List String
  | [] => []
  | f :: rest => f :: (dedupFields rest).filter (fun g => !(g == f))

/-- `group_bindings` (command.rs lines 383-386): the per-group bindings
`HashMap`, as an association list in field order. -/
def group_bindings (bindings : Bindings) (fields : List String) : Bindings :=
  (dedupFields fields).filterMap (fun f => (getKey bindings f).map (fun v => (f, v)))

/-- The loop body of `cartesian_product` (command.rs lines 411-421). -/
def cartesianStep (combinations : List (List String)) (p : String × List String) :
    List (List String) :=
  combinations.flatMap (fun existing => p.2.map (fun value => existing ++ [tagStr p.1 value]))

/-- `cartesian_product` (command.rs lines 402-425), over the binding entries
in the order the caller supplies (the `HashMap` iteration order). -/
def cartesian_product (binding_groups : Bindings) : List (List String) :=
  if binding_groups.isEmpty then [[]]
  else binding_groups.foldl cartesianStep [[]]

/-- The per-group item construction of command.rs lines 375-397.  `bindOrd`
is the iteration order of the per-group bindings `HashMap` consumed by
`cartesian_product`; the canonical order is `fun _ b => b`. -/
def itemsForGroup (bindings : Bindings) (bindOrd : List String → Bindings → Bindings)
    (g : List String × List String) : List DCBQueryItem :=
  if g.1.isEmpty then [⟨[], g.2⟩]
  else (cartesian_product (bindOrd g.1 (group_bindings bindings g.1))).map
    (fun tags => ⟨tags, g.2⟩)

/-- `build_query_items` (command.rs lines 354-400).  `groupOrd` is the
iteration order of the group `HashMap` (command.rs line 375), `bindOrd` the
iteration order of each per-group bindings `HashMap`; theorems quantify over
all permutations for both. -/
def build_query_items (eventDomainIds : List (String × List String)) (bindings : Bindings)
    (groupOrd : List (List String × List String) → List (List String × List String))
    (bindOrd : List String → Bindings → Bindings) : List DCBQueryItem :=
  (groupOrd (makeGroups eventDomainIds bindings)).flatMap (itemsForGroup bindings bindOrd)

/-- The canonical iteration order for the group map. -/
def idGroupOrd : List (List String × List String) → List (List String × List String) :=
  fun l => l

/-- The canonical iteration order for the per-group bindings map. -/
def idBindOrd : List String → Bindings → Bindings := fun _ b => b

/-- An item up to the order of its tag and type lists. -/
def canonItem (i : DCBQueryItem) : Multiset String × Multiset String :=
  (Multiset.ofList i.tags, Multiset.ofList i.types)

/-- A planner output up to item order and per-item tag and type order. -/
def canonItems (l : List DCBQueryItem) : Multiset (Multiset String × Multiset String) :=
  Multiset.ofList (l.map canonItem)

/-- The Cartesian products coerced to multisets of tag multisets. -/
def canonProd (l : Bindings) : Multiset (Multiset String) :=
  Multiset.ofList ((cartesian_product l).map (fun c => Multiset.ofList c))

/-- Spec-side value lookup for the claim-level Cartesian product. -/
def claimValues (bindings : Bindings) (f : String) : List String :=
  (getKey bindings f).getD []

/-- Written from the claim text for C1: the Cartesian product across the
field list of the bound value sequences, one `field:value` tag per field. -/
def claimProduct (bindings : Bindings) : List String → List (List String)
  | [] => [[]]
  | f :: fs => (claimValues bindings f).flatMap
      (fun v => (claimProduct bindings fs).map (fun tags => tagStr f v :: tags))

/-- Written from the claim text for C1: the items one group contributes. -/
def claimGroupItems (bindings : Bindings) (g : List String × List String) :
    List DCBQueryItem :=
  if g.1 = [] then [⟨[], g.2⟩]
  else (claimProduct bindings g.1).map (fun tags => ⟨tags, g.2⟩)

/-- The `EVENT_DOMAIN_IDS` of the worked example in the spec (scenario S5). -/
def exampleDomainIds : List (String × List String) :=
  [("UserRegistered", ["user_id"]),
   ("UserCompletedOnboarding", ["user_id"]),
   ("BetTracked", ["bet_id", "user_id"])]

/-- The bindings of the worked example in the spec (scenario S5). -/
def exampleBindings : Bindings :=
  [("user_id", ["abc"]), ("bet_id", ["xyz"])]

/-- The field-name part of a `"field:value"` tag string. -/
def tagField (s : String) : String := String.mk (s.data.takeWhile (fun c => !(c == ':')))

/-! ## Command executor (crates/sdk/src/command.rs lines 104-341, emit.rs)

UUIDs are abstract values; `Uuid::new_v4()` results are inputs of the
embedding.  Timestamps (`DateTime<Utc>`) are abstract integers.  Event
payload bytes together with their `serde_json::from_slice` decoding are
modeled as the decoding result itself (an `Except` value), since the claims
never inspect raw bytes. -/

/-- 128-bit UUIDs, kept abstract. -/
abbrev Uuid := Nat

/-- `SerializationError` (error.rs lines 73-77). -/
structure SerializationError where
  message : String
deriving DecidableEq, Repr

/-- `DCBError` from the external store, kept abstract. -/
abbrev DCBError := String

/-- `EventEnvelope` (constructed in command.rs lines 333-340; the struct
declaration is absent from the snapshot, fields taken from the
construction site and spec section 3). -/
structure EventEnvelope where
  timestamp : Int
  correlation_id : Uuid
  causation_id : Uuid
  triggered_by : Option Uuid
deriving DecidableEq, Repr

/-- Modelled from the spec: `StoredEventData` — the on-wire payload
`{timestamp, correlation_id, causation_id, triggered_by?, data}` (spec
section 3); the struct declaration is absent from the snapshot but its
construction site is emit.rs lines 127-136. -/
structure StoredEventData (V : Type) where
  timestamp : Int
  correlation_id : Uuid
  causation_id : Uuid
  triggered_by : Option Uuid
  data : V
deriving DecidableEq, Repr

/-- `DCBEvent` (external store type, spec section 6).  `data` holds the
`serde_json::from_slice::<StoredEventData>` decoding outcome of the stored
bytes. -/
structure DCBEvent (V : Type) where
  event_type : String
  tags : List String
  data : Except SerializationError (StoredEventData V)
  uuid : Option Uuid
deriving Repr

/-- `DCBSequencedEvent` (external store type, spec section 6). -/
structure DCBSequencedEvent (V : Type) where
  position : Nat
  event : DCBEvent V
deriving Repr

/-- `DCBAppendCondition` (external store type, spec section 6). -/
structure DCBAppendCondition where
  fail_if_events_match : DCBQuery
  after : Option Nat
deriving DecidableEq, Repr

/-- `ExecuteError` (error.rs lines 15-25). -/
inductive ExecuteError (E : Type) where
  | Command : E → ExecuteError E
  | Validation : E → ExecuteError E
  | DCB : DCBError → ExecuteError E
  | Serialization : SerializationError → ExecuteError E
deriving DecidableEq, Repr

/-- `EventMeta` (command.rs lines 343-346). -/
structure EventMeta where
  timestamp : Int
deriving DecidableEq, Repr

/-- `DomainIdValue` (domain_id.rs lines 17-23). -/
inductive DomainIdValue where
  | value : String → DomainIdValue
  | absent : DomainIdValue
deriving DecidableEq, Repr

/-- `EmittedEvent` (emit.rs lines 27-34); `domain_ids` is the
`DomainIdValues` map as an association list. -/
structure EmittedEvent (V : Type) where
  event_type : String
  data : V
  domain_ids : List (String × DomainIdValue)
deriving DecidableEq, Repr

/-- `Emit` (emit.rs lines 20-23). -/
structure Emit (V : Type) where
  events : List (EmittedEvent V)
deriving DecidableEq, Repr

/-- `Emit::is_empty` (emit.rs lines 67-69). -/
def Emit.is_empty {V : Type} (e : Emit V) : Bool := e.events.isEmpty

/-- `CommandContext` (command.rs lines 295-300). -/
structure CommandContext where
  command_id : Uuid
  correlation_id : Uuid
  triggered_by : Option Uuid
deriving DecidableEq, Repr

/-- `CommandContext::new` (command.rs lines 305-312); `id` is the
`Uuid::new_v4()` result. -/
def CommandContext.new (id : Uuid) : CommandContext :=
  { command_id := id, correlation_id := id, triggered_by := none }

/-- `CommandContext::with_correlation_id` (command.rs lines 315-321);
`fresh` is the `Uuid::new_v4()` result. -/
def CommandContext.with_correlation_id (correlation_id : Uuid) (fresh : Uuid) :
    CommandContext :=
  { command_id := fresh, correlation_id := correlation_id, triggered_by := none }

/-- `CommandContext::triggered_by_event` (command.rs lines 324-330). -/
def CommandContext.triggered_by_event (event_id : Uuid) (correlation_id : Uuid)
    (fresh : Uuid) : CommandContext :=
  { command_id := fresh, correlation_id := correlation_id, triggered_by := some event_id }

/-- `CommandContext::into_event_envelope` (command.rs lines 333-340). -/
def CommandContext.into_event_envelope (c : CommandContext) (timestamp : Int) :
    EventEnvelope :=
  { timestamp := timestamp
    correlation_id := c.correlation_id
    causation_id := c.command_id
    triggered_by := c.triggered_by }

/-- `EmittedEvent::into_dcb_event` (emit.rs lines 104-124) composed with the
stored-payload encoding (emit.rs lines 127-136); `uuid` is the fresh
`Uuid::new_v4()`.  The assertion that a domain-id category contains no
colon is a panic in the source and is not modeled. -/
def EmittedEvent.into_dcb_event {V : Type} (e : EmittedEvent V)
    (envelope : EventEnvelope) (uuid : Uuid) : DCBEvent V :=
  { event_type := e.event_type
    tags := e.domain_ids.filterMap (fun p =>
      match p.2 with
      | DomainIdValue.value id => some (tagStr p.1 id)
      | DomainIdValue.absent => none)
    data := Except.ok
      { timestamp := envelope.timestamp
        correlation_id := envelope.correlation_id
        causation_id := envelope.causation_id
        triggered_by := envelope.triggered_by
        data := e.data }
    uuid := some uuid }

/-- Modelled from the spec: `encode_to_dcb_event` is referenced by
command.rs line 200 but its definition is absent from the snapshot; per
spec section 4.3 step 10 and section 4.4 it encodes one emitted event to
wire form with the given envelope, i.e. `EmittedEvent::into_dcb_event`. -/
def encode_to_dcb_event {V : Type} (e : EmittedEvent V) (envelope : EventEnvelope)
    (uuid : Uuid) : DCBEvent V :=
  e.into_dcb_event envelope uuid

/-- The per-event fresh-UUID mapping of
`emit.into_events().into_iter().map(...)` (command.rs lines 197-201):
event `i` receives `uuidGen i`. -/
def encodeEmitted {V : Type} (context : CommandContext) (timestamp : Int)
    (uuidGen : Nat → Uuid) : Nat → List (EmittedEvent V) → List (DCBEvent V)
  | _, [] => []
  | i, e :: rest =>
    encode_to_dcb_event e (context.into_event_envelope timestamp) (uuidGen i)
      :: encodeEmitted context timestamp uuidGen (i + 1) rest

/-- `ExecuteResult` (command.rs lines 348-352). -/
structure ExecuteResult (V : Type) where
  position : Option Nat
  events : List (DCBEvent V)
deriving Repr

/-- The behaviour of one `Command` impl (command.rs lines 104-152): the
handler functions the executor calls.  `S` is the handler state, `Q` the
query event set, `I` the input, `E` the error type, `V` the payload type. -/
structure CommandSpec (S Q I E V : Type) where
  validate : I → Except E Unit
  dflt : S
  queryF : I → DCBQuery
  from_event : String → V → Option (Except SerializationError Q)
  applyF : S → Q → EventMeta → S
  handleF : S → I → Except E (Emit V)
  before_commit : S → I → Emit V → Except E Unit

/-- The event-application loop of `execute_with` (command.rs lines 178-189):
decode each streamed event, skip events not in the query set with a
warning, abort on serialization errors, apply the rest in order.  Returns
the final state (or error) together with the list of `(position, event)`
pairs handed to `apply`, in call order. -/
def applyEvents {S Q I E V : Type} (cmd : CommandSpec S Q I E V) :
    List (DCBSequencedEvent V) → S → Except (ExecuteError E) S × List (Nat × Q)
  | [], s => (Except.ok s, [])
  | e :: rest, s =>
    match e.event.data with
    | Except.error err => (Except.error (ExecuteError.Serialization err), [])
    | Except.ok sd =>
      match cmd.from_event e.event.event_type sd.data with
      | none => applyEvents cmd rest s
      | some (Except.error err) => (Except.error (ExecuteError.Serialization err), [])
      | some (Except.ok q) =>
        let r := applyEvents cmd rest (cmd.applyF s q { timestamp := sd.timestamp })
        (r.1, (e.position, q) :: r.2)

/-- The observable behaviour of one `execute_with` call: the query used for
the read (when the read happened), the apply calls, the append call (when
one was issued) and the returned result. -/
structure ExecTrace (Q E V : Type) where
  readQuery : Option DCBQuery
  applied : List (Nat × Q)
  appendCall : Option (List (DCBEvent V) × DCBAppendCondition)
  result : Except (ExecuteError E) (ExecuteResult V)

/-- `Command::execute_with` (command.rs lines 163-225).  The store's read
result is the pair `(readEvents, head)` from `collect_with_head`;
`appendRes` is the store's answer to the append when one is issued; `now`
is the `Utc::now()` emission timestamp; `uuidGen` supplies the fresh event
UUIDs. -/
def execute_with {S Q I E V : Type} (cmd : CommandSpec S Q I E V) (input : I)
    (context : CommandContext) (now : Int) (readEvents : List (DCBSequencedEvent V))
    (head : Option Nat) (appendRes : Except DCBError Nat) (uuidGen : Nat → Uuid) :
    ExecTrace Q E V :=
  match cmd.validate input with
  | Except.error e => ⟨none, [], none, Except.error (ExecuteError.Validation e)⟩
  | Except.ok _ =>
    let query := cmd.queryF input
    let folded := applyEvents cmd readEvents cmd.dflt
    match folded.1 with
    | Except.error e => ⟨some query, folded.2, none, Except.error e⟩
    | Except.ok handler =>
      match cmd.handleF handler input with
      | Except.error e => ⟨some query, folded.2, none, Except.error (ExecuteError.Command e)⟩
      | Except.ok emit =>
        match cmd.before_commit handler input emit with
        | Except.error e =>
          ⟨some query, folded.2, none, Except.error (ExecuteError.Command e)⟩
        | Except.ok _ =>
          let append_events := encodeEmitted context now uuidGen 0 emit.events
          if append_events.isEmpty then
            ⟨some query, folded.2, none, Except.ok ⟨head, []⟩⟩
          else
            match appendRes with
            | Except.error e =>
              ⟨some query, folded.2, some (append_events, ⟨query, head⟩),
                Except.error (ExecuteError.DCB e)⟩
            | Except.ok new_position =>
              ⟨some query, folded.2, some (append_events, ⟨query, head⟩),
                Except.ok ⟨some new_position, append_events⟩⟩

/-- `Command::execute_blocking_with` (command.rs lines 236-292): identical
to `execute_with` except that `before_commit` is polled exactly once;
`bcImmediate = false` models a future that would suspend, which the source
turns into a panic (`expect`), modeled as `none`. -/
def execute_blocking_with {S Q I E V : Type} (cmd : CommandSpec S Q I E V) (input : I)
    (context : CommandContext) (now : Int) (readEvents : List (DCBSequencedEvent V))
    (head : Option Nat) (appendRes : Except DCBError Nat) (uuidGen : Nat → Uuid)
    (bcImmediate : Bool) : Option (ExecTrace Q E V) :=
  match cmd.validate input with
  | Except.error e => some ⟨none, [], none, Except.error (ExecuteError.Validation e)⟩
  | Except.ok _ =>
    let query := cmd.queryF input
    let folded := applyEvents cmd readEvents cmd.dflt
    match folded.1 with
    | Except.error e => some ⟨some query, folded.2, none, Except.error e⟩
    | Except.ok handler =>
      match cmd.handleF handler input with
      | Except.error e =>
        some ⟨some query, folded.2, none, Except.error (ExecuteError.Command e)⟩
      | Except.ok emit =>
        if bcImmediate then
          match cmd.before_commit handler input emit with
          | Except.error e =>
            some ⟨some query, folded.2, none, Except.error (ExecuteError.Command e)⟩
          | Except.ok _ =>
            let append_events := encodeEmitted context now uuidGen 0 emit.events
            if append_events.isEmpty then
              some ⟨some query, folded.2, none, Except.ok ⟨head, []⟩⟩
            else
              match appendRes with
              | Except.error e =>
                some ⟨some query, folded.2, some (append_events, ⟨query, head⟩),
                  Except.error (ExecuteError.DCB e)⟩
              | Except.ok new_position =>
                some ⟨some query, folded.2, some (append_events, ⟨query, head⟩),
                  Except.ok ⟨some new_position, append_events⟩⟩
        else
          none

/-! ## Projection runner (crates/postgres/src/lib.rs) -/

/-- The positions handed to `handler.handle` by successive
`ProjectionRunner::next` calls over a stream (lib.rs lines 104-143):
decode `StoredEventData`, then `from_event`; `None` logs and skips (but
still advances position), `Some(Err)` aborts the run, otherwise the
handler is called; a handler error aborts the run after the call.  The
timeout branch consumes no stream item and is omitted. -/
def runnerApplied {Q V : Type} (from_event : String → V → Option (Except SerializationError Q))
    (handleOk : Nat → Q → Bool) : List (DCBSequencedEvent V) → List Nat
  | [] => []
  | e :: rest =>
    match e.event.data with
    | Except.error _ => []
    | Except.ok sd =>
      match from_event e.event.event_type sd.data with
      | none => runnerApplied from_event handleOk rest
      | some (Except.error _) => []
      | some (Except.ok q) =>
        if handleOk e.position q then
          e.position :: runnerApplied from_event handleOk rest
        else
          [e.position]

/-- Rust's derived `Option<u64>` order (`None < Some(_)`), used by
`self.position <= self.head` (lib.rs lines 86 and 178). -/
def optionLe : Option Nat → Option Nat → Bool
  | none, _ => true
  | some _, none => false
  | some a, some b => a ≤ b

/-- `FlushConfig` (lib.rs lines 394-399); time intervals in milliseconds. -/
structure FlushConfig where
  live_events_interval : Nat
  live_time_interval : Nat
  replay_events_interval : Nat
  replay_time_interval : Nat
deriving DecidableEq, Repr

/-- `FlushConfig::should_flush` (lib.rs lines 401-416); `elapsed` is
`last_flushed_at.elapsed()` in milliseconds. -/
def FlushConfig.should_flush (c : FlushConfig) (events_since_flush : Nat)
    (elapsed : Nat) (is_replaying : Bool) : Bool :=
  if is_replaying then
    events_since_flush ≥ c.replay_events_interval || elapsed ≥ c.replay_time_interval
  else
    events_since_flush ≥ c.live_events_interval || elapsed ≥ c.live_time_interval

/-- `FlushConfig::default` (lib.rs lines 418-427): live = (1 event, 1 s),
replay = (500 events, 10 s). -/
def FlushConfig.dfltConfig : FlushConfig :=
  { live_events_interval := 1
    live_time_interval := 1000
    replay_events_interval := 500
    replay_time_interval := 10000 }

/-- The flush decision of `flush_if_necessary` (lib.rs lines 177-189):
`is_replaying = position <= head` with Rust's `Option<u64>` order. -/
def flushDecision (c : FlushConfig) (position head : Option Nat)
    (events_since_flush : Nat) (elapsed : Nat) : Bool :=
  c.should_flush events_since_flush elapsed (optionLe position head)

/-- `sqlx::Error` variants relevant to the checkpoint table; `Database`
carries the database error (e.g. a duplicate-key violation). -/
inductive SqlxError where
  | RowNotFound : SqlxError
  | Database : String → SqlxError
deriving DecidableEq, Repr

/-- `ProjectionError` (lib.rs lines 429-441), restricted to the variants
the modeled paths can produce. -/
inductive ProjectionError (E : Type) where
  | Handler : E → ProjectionError E
  | Sqlx : SqlxError → ProjectionError E
deriving DecidableEq, Repr

/-- A checkpoint-table state: one row per `projection_id`, storing the
position as an `i64` (lib.rs casts `position as i64`). -/
abbrev CkTable := List (String × Int)

/-- The Postgres semantics of the INSERT issued by `CheckpointTable::save`
(lib.rs lines 362-370): fails with a duplicate-key database error when a
row with this `projection_id` (the primary key) exists, otherwise adds the
row. -/
def ckInsert (t : CkTable) (pid : String) (pos : Int) : CkTable × Except SqlxError Unit :=
  if t.any (fun r => r.1 == pid) then
    (t, Except.error (SqlxError.Database "duplicate key value violates unique constraint"))
  else
    (t ++ [(pid, pos)], Except.ok ())

/-- The Postgres semantics of the UPDATE issued by `CheckpointTable::save`
(lib.rs lines 372-382): set the position on rows matching
`projection_id = pid AND position = expected`; returns the updated table
and the number of rows affected. -/
def ckUpdate (t : CkTable) (pid : String) (expected : Int) (pos : Int) :
    CkTable × Nat :=
  (t.map (fun r => if r.1 == pid && r.2 == expected then (r.1, pos) else r),
   (t.filter (fun r => r.1 == pid && r.2 == expected)).length)

/-- `CheckpointTable::save` (lib.rs lines 354-392): INSERT when no expected
position, otherwise compare-and-swap UPDATE returning `RowNotFound` when
zero rows were affected. -/
def checkpointSave (t : CkTable) (pid : String) (expected : Option Nat)
    (position : Nat) : CkTable × Except SqlxError Unit :=
  match expected with
  | none => ckInsert t pid (Int.ofNat position)
  | some exp =>
    let r := ckUpdate t pid (Int.ofNat exp) (Int.ofNat position)
    if r.2 == 0 then
      (r.1, Except.error SqlxError.RowNotFound)
    else
      (r.1, Except.ok ())

/-- The `ProjectionRunner` fields that `flush` reads and writes (lib.rs
lines 20-36). -/
structure RunnerState where
  position : Option Nat
  head : Option Nat
  events_since_flush : Nat
  last_flushed_position : Option Nat
  last_flushed_at : Nat
  transactionOpen : Bool
deriving DecidableEq, Repr

/-- The outcome of one `ProjectionRunner::flush` call: the state after the
call, whether the database transaction was committed, and the returned
result. -/
structure FlushOutcome (E : Type) where
  state : RunnerState
  committed : Bool
  result : Except (ProjectionError E) Unit
deriving Repr

/-- `ProjectionRunner::flush` (lib.rs lines 145-175).  `saveRes`,
`handlerFlushRes`, `commitRes` and `postCommitRes` are the outcomes of the
checkpoint save, `handler.flush`, `tx.commit()` and `handler.post_commit`;
later outcomes are only consulted when the earlier steps succeed.  `now`
is the `Instant::now()` taken on success. -/
def ProjectionRunner.flush {E : Type} (s : RunnerState) (now : Nat)
    (saveRes : Except SqlxError Unit) (handlerFlushRes : Except E Unit)
    (commitRes : Except SqlxError Unit) (postCommitRes : Except E Unit) :
    FlushOutcome E :=
  match s.position with
  | none => ⟨s, false, Except.ok ()⟩
  | some position =>
    let s1 := { s with position := none }
    if !s.transactionOpen then
      ⟨s1, false, Except.ok ()⟩
    else
      let s2 := { s1 with transactionOpen := false }
      match saveRes with
      | Except.error e => ⟨s2, false, Except.error (ProjectionError.Sqlx e)⟩
      | Except.ok _ =>
        match handlerFlushRes with
        | Except.error e => ⟨s2, false, Except.error (ProjectionError.Handler e)⟩
        | Except.ok _ =>
          match commitRes with
          | Except.error e => ⟨s2, false, Except.error (ProjectionError.Sqlx e)⟩
          | Except.ok _ =>
            match postCommitRes with
            | Except.error e => ⟨s2, true, Except.error (ProjectionError.Handler e)⟩
            | Except.ok _ =>
              ⟨{ s2 with
                  events_since_flush := 0
                  last_flushed_at := now
                  last_flushed_position := some position }, true, Except.ok ()⟩

/-! ## Concrete instances used by witnesses and counterexamples -/

/-- A minimal command whose `handle` emits nothing. -/
def unitCmd : CommandSpec Unit Unit Unit Unit Unit :=
  { validate := fun _ => Except.ok ()
    dflt := ()
    queryF := fun _ => ⟨[]⟩
    from_event := fun t _ => if t == "E" then some (Except.ok ()) else none
    applyF := fun _ _ _ => ()
    handleF := fun _ _ => Except.ok ⟨[]⟩
    before_commit := fun _ _ _ => Except.ok () }

/-- A minimal command whose `handle` emits one event. -/
def emitCmd : CommandSpec Unit Unit Unit Unit Unit :=
  { validate := fun _ => Except.ok ()
    dflt := ()
    queryF := fun _ => ⟨[]⟩
    from_event := fun t _ => if t == "E" then some (Except.ok ()) else none
    applyF := fun _ _ _ => ()
    handleF := fun _ _ => Except.ok ⟨[⟨"E", (), [("user_id", DomainIdValue.value "abc")]⟩]⟩
    before_commit := fun _ _ _ => Except.ok () }

/-- A streamed event at a given position, decodable by `unitCmd`. -/
def streamEvent (pos : Nat) : DCBSequencedEvent Unit :=
  { position := pos
    event :=
      { event_type := "E"
        tags := []
        data := Except.ok { timestamp := 0, correlation_id := 0, causation_id := 0,
                            triggered_by := none, data := () }
        uuid := some 0 } }

theorem cartesian_eq_foldl (l : Bindings) :
    cartesian_product l = l.foldl cartesianStep [[]] := by
  cases l with
  | nil => rfl
  | cons p rest => simp [cartesian_product]

theorem foldl_cartesianStep (l : Bindings) :
    ∀ acc : List (List String),
      l.foldl cartesianStep acc
        = acc.flatMap (fun e => (l.foldl cartesianStep [[]]).map (fun c => e ++ c)) := by
  induction l with
  | nil =>
    intro acc
    simp
  | cons p rest ih =>
    intro acc
    rw [List.foldl_cons, ih (cartesianStep acc p), List.foldl_cons, ih (cartesianStep [[]] p)]
    simp only [cartesianStep, List.map_flatMap, List.flatMap_map, List.flatMap_assoc,
      List.map_map, List.nil_append, List.flatMap_cons, List.flatMap_nil, List.append_nil]
    simp [Function.comp_def, List.append_assoc]

theorem cartesian_cons (p : String × List String) (l : Bindings) :
    cartesian_product (p :: l)
      = p.2.flatMap (fun v => (cartesian_product l).map (fun c => tagStr p.1 v :: c)) := by
  rw [cartesian_eq_foldl, List.foldl_cons, foldl_cartesianStep, ← cartesian_eq_foldl]
  simp [cartesianStep, List.flatMap_map]

theorem canonProd_cons (p : String × List String) (l : Bindings) :
    canonProd (p :: l)
      = (↑p.2 : Multiset String).bind (fun v => (canonProd l).map (fun m => tagStr p.1 v ::ₘ m)) := by
  rw [canonProd, cartesian_cons, List.map_flatMap, ← Multiset.coe_bind]
  refine Multiset.bind_congr (fun v _ => ?h)
  rw [canonProd, Multiset.map_coe, List.map_map, List.map_map]
  rfl

theorem canonProd_perm {l1 l2 : Bindings} (h : l1.Perm l2) : canonProd l1 = canonProd l2 := by
  induction h with
  | nil => rfl
  | cons p _ ih => rw [canonProd_cons, canonProd_cons, ih]
  | swap p q l =>
    rw [canonProd_cons, canonProd_cons, canonProd_cons, canonProd_cons]
    simp only [Multiset.map_bind, Multiset.map_map, Function.comp]
    rw [Multiset.bind_bind]
    refine Multiset.bind_congr (fun v _ => ?h)
    refine Multiset.bind_congr (fun w _ => ?h2)
    exact Multiset.map_congr rfl (fun m _ => Multiset.cons_swap _ _ m)
  | trans _ _ ih1 ih2 => rw [ih1, ih2]

theorem charListLe_refl : ∀ l : List Char, charListLe l l = true
  | [] => rfl
  | a :: as => by simp [charListLe, lt_irrefl, charListLe_refl as]

theorem charListLe_total : ∀ l1 l2 : List Char,
    charListLe l1 l2 = true ∨ charListLe l2 l1 = true
  | [], _ => Or.inl rfl
  | _ :: _, [] => Or.inr rfl
  | a :: as, b :: bs => by
    rcases lt_trichotomy a b with h | h | h
    · left
      simp [charListLe, h]
    · subst h
      rcases charListLe_total as bs with ih | ih
      · left
        simp [charListLe, lt_irrefl, ih]
      · right
        simp [charListLe, lt_irrefl, ih]
    · right
      simp [charListLe, h]

theorem charListLe_trans : ∀ (l1 l2 l3 : List Char),
    charListLe l1 l2 = true → charListLe l2 l3 = true → charListLe l1 l3 = true := by
  intro l1
  induction l1 with
  | nil => intro l2 l3 _ _; rfl
  | cons a as ih =>
    intro l2 l3 h1 h2
    match l2, l3 with
    | [], _ => simp [charListLe] at h1
    | b :: bs, [] => simp [charListLe] at h2
    | b :: bs, c :: cs =>
      simp only [charListLe] at h1 h2 ⊢
      rcases lt_trichotomy a b with hab | hab | hab
      · rcases lt_trichotomy b c with hbc | hbc | hbc
        · simp [hab.trans hbc]
        · subst hbc
          simp [hab]
        · simp [lt_asymm hbc, hbc.ne'] at h2
      · subst hab
        rcases lt_trichotomy a c with hbc | hbc | hbc
        · simp [hbc]
        · subst hbc
          rw [if_neg (lt_irrefl a), if_pos rfl] at h1 h2 ⊢
          exact ih bs cs h1 h2
        · simp [lt_asymm hbc, hbc.ne'] at h2
      · simp [lt_asymm hab, hab.ne'] at h1

theorem strLe_total (a b : String) : strLe a b = true ∨ strLe b a = true :=
  charListLe_total a.data b.data

theorem strLe_trans {a b c : String} (h1 : strLe a b = true) (h2 : strLe b c = true) :
    strLe a c = true :=
  charListLe_trans a.data b.data c.data h1 h2

theorem strLe_of_not_le {a b : String} (h : ¬strLe a b = true) : strLe b a = true := by
  rcases strLe_total a b with h1 | h1
  · exact absurd h1 h
  · exact h1

theorem insertSorted_perm (x : String) (l : List String) :
    (insertSorted x l).Perm (x :: l) := by
  induction l with
  | nil => exact List.Perm.refl _
  | cons y ys ih =>
    by_cases h : strLe x y = true
    · simp [insertSorted, h]
    · rw [insertSorted, if_neg h]
      exact (ih.cons y).trans (List.Perm.swap x y ys)

theorem sortFields_perm (l : List String) : (sortFields l).Perm l := by
  induction l with
  | nil => exact List.Perm.refl _
  | cons x xs ih =>
    exact (insertSorted_perm x (sortFields xs)).trans (ih.cons x)

theorem mem_insertSorted {b x : String} {l : List String} :
    b ∈ insertSorted x l ↔ b = x ∨ b ∈ l := by
  rw [(insertSorted_perm x l).mem_iff, List.mem_cons]

theorem insertSorted_sorted (x : String) {l : List String}
    (h : List.Sorted (fun a b => strLe a b = true) l) :
    List.Sorted (fun a b => strLe a b = true) (insertSorted x l) := by
  induction l with
  | nil => simp [insertSorted]
  | cons y ys ih =>
    rw [List.sorted_cons] at h
    by_cases hxy : strLe x y = true
    · rw [insertSorted, if_pos hxy, List.sorted_cons]
      refine ⟨fun b hb => ?g1, List.sorted_cons.mpr h⟩
      rcases List.mem_cons.mp hb with hb | hb
      · exact hb ▸ hxy
      · exact strLe_trans hxy (h.1 b hb)
    · rw [insertSorted, if_neg hxy, List.sorted_cons]
      refine ⟨fun b hb => ?g2, ih h.2⟩
      rcases mem_insertSorted.mp hb with hb | hb
      · exact hb ▸ strLe_of_not_le hxy
      · exact h.1 b hb

theorem sortFields_sorted (l : List String) :
    List.Sorted (fun a b => strLe a b = true) (sortFields l) := by
  induction l with
  | nil => simp [sortFields]
  | cons x xs ih => exact insertSorted_sorted x ih

theorem relevant_fields_sorted (B : Bindings) (fields : List String) :
    List.Sorted (fun a b => strLe a b = true) (relevant_fields B fields) :=
  sortFields_sorted _

theorem relevant_fields_bound (B : Bindings) (fields : List String) :
    ∀ f ∈ relevant_fields B fields, containsKey B f = true := by
  intro f hf
  have hm : f ∈ fields.filter (fun f => containsKey B f) :=
    (sortFields_perm _).mem_iff.mp hf
  exact List.of_mem_filter hm

theorem relevant_fields_nodup (B : Bindings) {fields : List String}
    (h : fields.Nodup) : (relevant_fields B fields).Nodup :=
  (sortFields_perm _).nodup_iff.mpr (h.filter _)

/-- Group keys of the group map. -/
def groupKeys (gs : List (List String × List String)) : List (List String) :=
  gs.map (·.1)

/-- `HashMap::get` on the group map (first matching entry). -/
def findGroup (gs : List (List String × List String)) (k : List String) :
    Option (List String) :=
  (gs.find? (fun g => g.1 == k)).map (·.2)

/-- `groups.entry(k).or_default()` before the push: the existing types. -/
def groupTypes (gs : List (List String × List String)) (k : List String) : List String :=
  (findGroup gs k).getD []

theorem findGroup_cons (g : List String × List String)
    (rest : List (List String × List String)) (q : List String) :
    findGroup (g :: rest) q = if g.1 = q then some g.2 else findGroup rest q := by
  by_cases h : g.1 = q
  · rw [findGroup, List.find?_cons_of_pos _ (by simpa using h), if_pos h]
    rfl
  · rw [findGroup, List.find?_cons_of_neg _ (by simpa using h), if_neg h]
    rfl

theorem findGroup_insert (gs : List (List String × List String)) (k : List String)
    (et : String) (q : List String) :
    findGroup (insertGroup gs k et) q =
      if q = k then some (groupTypes gs k ++ [et]) else findGroup gs q := by
  induction gs with
  | nil =>
    simp only [insertGroup]
    by_cases h : q = k
    · rw [findGroup_cons, if_pos h.symm, if_pos h]
      rfl
    · rw [findGroup_cons, if_neg (fun hc => h hc.symm), if_neg h]
  | cons g rest ih =>
    by_cases hg : g.1 = k
    · rw [insertGroup, if_pos hg]
      by_cases h : q = k
      · have hgq : g.1 = q := hg.trans h.symm
        rw [findGroup_cons, if_pos hgq, if_pos h]
        simp [groupTypes, findGroup_cons, hg]
      · have hgq : ¬g.1 = q := fun hc => h ((hc.symm).trans hg)
        rw [findGroup_cons, if_neg hgq, if_neg h, findGroup_cons, if_neg hgq]
    · rw [insertGroup, if_neg hg]
      by_cases h : q = k
      · have hgq : ¬g.1 = q := fun hc => hg (hc.trans h)
        rw [findGroup_cons, if_neg hgq, ih, if_pos h, if_pos h]
        simp [groupTypes, findGroup_cons, hg]
      · by_cases hgq : g.1 = q
        · rw [findGroup_cons, if_pos hgq, if_neg h, findGroup_cons, if_pos hgq]
        · rw [findGroup_cons, if_neg hgq, ih, if_neg h, if_neg h, findGroup_cons, if_neg hgq]

theorem groupTypes_insert (gs : List (List String × List String)) (k : List String)
    (et : String) (q : List String) :
    groupTypes (insertGroup gs k et) q =
      if q = k then groupTypes gs k ++ [et] else groupTypes gs q := by
  rw [groupTypes, findGroup_insert]
  by_cases h : q = k
  · rw [if_pos h, if_pos h]
    rfl
  · rw [if_neg h, if_neg h]
    rfl

theorem mem_groupKeys_insert (gs : List (List String × List String)) (k : List String)
    (et : String) (q : List String) :
    q ∈ groupKeys (insertGroup gs k et) ↔ q ∈ groupKeys gs ∨ q = k := by
  induction gs with
  | nil => simp [insertGroup, groupKeys]
  | cons g rest ih =>
    by_cases hg : g.1 = k
    · rw [insertGroup, if_pos hg]
      simp only [groupKeys, List.map_cons, List.mem_cons]
      constructor
      · rintro (h | h)
        · exact Or.inl (Or.inl h)
        · exact Or.inl (Or.inr h)
      · rintro ((h | h) | h)
        · exact Or.inl h
        · exact Or.inr h
        · exact Or.inl (h.trans hg.symm)
    · rw [insertGroup, if_neg hg]
      simp only [groupKeys, List.map_cons, List.mem_cons] at ih ⊢
      rw [ih]
      tauto

theorem groupKeys_insert_nodup (gs : List (List String × List String)) (k : List String)
    (et : String) (h : (groupKeys gs).Nodup) :
    (groupKeys (insertGroup gs k et)).Nodup := by
  induction gs with
  | nil => simp [insertGroup, groupKeys]
  | cons g rest ih =>
    simp only [groupKeys, List.map_cons, List.nodup_cons] at h
    by_cases hg : g.1 = k
    · rw [insertGroup, if_pos hg]
      simp only [groupKeys, List.map_cons, List.nodup_cons]
      exact h
    · rw [insertGroup, if_neg hg]
      simp only [groupKeys, List.map_cons, List.nodup_cons]
      refine ⟨fun hc => ?head, ih h.2⟩
      rcases (mem_groupKeys_insert rest k et g.1).mp hc with hc | hc
      · exact h.1 hc
      · exact hg hc

theorem foldl_insertGroup_types (B : Bindings) (E : List (String × List String)) :
    ∀ (acc : List (List String × List String)) (k : List String),
      groupTypes (E.foldl (fun gs p => insertGroup gs (relevant_fields B p.2) p.1) acc) k
        = groupTypes acc k
            ++ (E.filter (fun p => relevant_fields B p.2 == k)).map (·.1) := by
  induction E with
  | nil => intro acc k; simp
  | cons p E ih =>
    intro acc k
    rw [List.foldl_cons, ih]
    by_cases h : relevant_fields B p.2 = k
    · rw [groupTypes_insert, if_pos h.symm]
      simp [List.filter_cons, h, List.append_assoc]
    · rw [groupTypes_insert, if_neg (fun hc => h hc.symm)]
      simp [List.filter_cons, h]

theorem foldl_insertGroup_keys (B : Bindings) (E : List (String × List String)) :
    ∀ (acc : List (List String × List String)) (k : List String),
      k ∈ groupKeys (E.foldl (fun gs p => insertGroup gs (relevant_fields B p.2) p.1) acc)
        ↔ k ∈ groupKeys acc ∨ k ∈ E.map (fun p => relevant_fields B p.2) := by
  induction E with
  | nil => intro acc k; simp
  | cons p E ih =>
    intro acc k
    rw [List.foldl_cons, ih, mem_groupKeys_insert]
    simp only [List.map_cons, List.mem_cons]
    tauto

theorem foldl_insertGroup_nodup (B : Bindings) (E : List (String × List String)) :
    ∀ (acc : List (List String × List String)), (groupKeys acc).Nodup →
      (groupKeys (E.foldl (fun gs p => insertGroup gs (relevant_fields B p.2) p.1) acc)).Nodup := by
  induction E with
  | nil => intro acc h; simpa using h
  | cons p E ih =>
    intro acc h
    rw [List.foldl_cons]
    exact ih _ (groupKeys_insert_nodup _ _ _ h)

theorem findGroup_of_mem :
    ∀ {gs : List (List String × List String)} {s ts : List String},
      (groupKeys gs).Nodup → (s, ts) ∈ gs → findGroup gs s = some ts := by
  intro gs
  induction gs with
  | nil => intro s ts _ h; simp at h
  | cons g rest ih =>
    intro s ts hnd hmem
    simp only [groupKeys, List.map_cons, List.nodup_cons] at hnd
    rcases List.mem_cons.mp hmem with hmem | hmem
    · rw [← hmem, findGroup_cons, if_pos rfl]
    · have hgs : ¬g.1 = s := fun hc => by
        refine hnd.1 ?h
        rw [hc]
        exact List.mem_map.mpr ⟨(s, ts), hmem, rfl⟩
      rw [findGroup_cons, if_neg hgs]
      exact ih hnd.2 hmem

theorem makeGroups_keys_nodup (E : List (String × List String)) (B : Bindings) :
    (groupKeys (makeGroups E B)).Nodup :=
  foldl_insertGroup_nodup B E [] (by simp [groupKeys])

theorem makeGroups_types (E : List (String × List String)) (B : Bindings)
    {g : List String × List String} (h : g ∈ makeGroups E B) :
    g.2 = (E.filter (fun p => relevant_fields B p.2 == g.1)).map (·.1) := by
  have h1 : findGroup (makeGroups E B) g.1 = some g.2 :=
    findGroup_of_mem (makeGroups_keys_nodup E B) (by simpa using h)
  have h2 := foldl_insertGroup_types B E [] g.1
  rw [makeGroups] at h1
  rw [groupTypes, h1] at h2
  simpa [groupTypes, findGroup] using h2

theorem makeGroups_keys_sig (E : List (String × List String)) (B : Bindings)
    {g : List String × List String} (h : g ∈ makeGroups E B) :
    g.1 ∈ E.map (fun p => relevant_fields B p.2) := by
  have h1 : g.1 ∈ groupKeys (makeGroups E B) := List.mem_map.mpr ⟨g, h, rfl⟩
  rw [makeGroups] at h1
  rcases (foldl_insertGroup_keys B E [] g.1).mp h1 with h2 | h2
  · simp [groupKeys] at h2
  · exact h2

theorem makeGroups_sig_mem (E : List (String × List String)) (B : Bindings)
    {p : String × List String} (h : p ∈ E) :
    relevant_fields B p.2 ∈ groupKeys (makeGroups E B) := by
  rw [makeGroups, foldl_insertGroup_keys]
  exact Or.inr (List.mem_map.mpr ⟨p, h, rfl⟩)

theorem dedupFields_eq_self : ∀ {l : List String}, l.Nodup → dedupFields l = l := by
  intro l
  induction l with
  | nil => intro _; rfl
  | cons f rest ih =>
    intro h
    rw [List.nodup_cons] at h
    have hfilter : rest.filter (fun g => !(g == f)) = rest := by
      rw [List.filter_eq_self]
      intro a ha
      simp only [Bool.not_eq_true', beq_eq_false_iff_ne, ne_eq]
      exact fun hc => h.1 (hc ▸ ha)
    rw [dedupFields, ih h.2, hfilter]

theorem containsKey_getKey {B : Bindings} {f : String} (h : containsKey B f = true) :
    getKey B f = some (claimValues B f) := by
  rw [containsKey, List.any_eq_true] at h
  rcases h with ⟨p, hp, hpf⟩
  have : (B.find? (fun q => q.1 == f)).isSome := by
    rw [List.find?_isSome]
    exact ⟨p, hp, hpf⟩
  rcases Option.isSome_iff_exists.mp this with ⟨q, hq⟩
  rw [getKey, hq, claimValues, getKey, hq]
  rfl

theorem group_bindings_eq_map {B : Bindings} {s : List String}
    (hb : ∀ f ∈ s, containsKey B f = true) (hnd : s.Nodup) :
    group_bindings B s = s.map (fun f => (f, claimValues B f)) := by
  rw [group_bindings, dedupFields_eq_self hnd]
  induction s with
  | nil => rfl
  | cons f s ih =>
    rw [List.filterMap_cons, containsKey_getKey (hb f (List.mem_cons_self f s))]
    rw [List.map_cons, ih (fun x hx => hb x (List.mem_cons_of_mem f hx)) (List.nodup_cons.mp hnd).2]
    rfl

theorem cartesian_map_claimProduct (B : Bindings) :
    ∀ s : List String,
      cartesian_product (s.map (fun f => (f, claimValues B f))) = claimProduct B s := by
  intro s
  induction s with
  | nil => rfl
  | cons f s ih =>
    rw [List.map_cons, cartesian_cons, claimProduct, ih]

theorem itemsForGroup_id_eq_claim (B : Bindings) (g : List String × List String)
    (hb : ∀ f ∈ g.1, containsKey B f = true) (hnd : g.1.Nodup) :
    itemsForGroup B idBindOrd g = claimGroupItems B g := by
  rw [itemsForGroup, claimGroupItems, idBindOrd]
  by_cases h : g.1 = []
  · simp [h]
  · rw [if_neg (by simpa using h), if_neg h, group_bindings_eq_map hb hnd,
      cartesian_map_claimProduct]

theorem canon_group_items (b : Bindings) (ts : List String) :
    Multiset.ofList (((cartesian_product b).map (fun tags => DCBQueryItem.mk tags ts)).map canonItem)
      = (canonProd b).map (fun m => (m, Multiset.ofList ts)) := by
  rw [canonProd, Multiset.map_coe, List.map_map, List.map_map]
  rfl

theorem canon_itemsForGroup (B : Bindings) (bo : List String → Bindings → Bindings)
    (hb : ∀ k b, (bo k b).Perm b) (g : List String × List String) :
    Multiset.ofList ((itemsForGroup B bo g).map canonItem)
      = Multiset.ofList ((itemsForGroup B idBindOrd g).map canonItem) := by
  rw [itemsForGroup, itemsForGroup, idBindOrd]
  by_cases h : g.1.isEmpty
  · rw [if_pos h, if_pos h]
  · rw [if_neg h, if_neg h, canon_group_items, canon_group_items, canonProd_perm (hb g.1 _)]

theorem canonItems_build (E : List (String × List String)) (B : Bindings)
    (go : List (List String × List String) → List (List String × List String))
    (bo : List String → Bindings → Bindings)
    (hg : ∀ l, (go l).Perm l) (hb : ∀ k b, (bo k b).Perm b) :
    canonItems (build_query_items E B go bo)
      = canonItems (build_query_items E B idGroupOrd idBindOrd) := by
  rw [build_query_items, build_query_items, canonItems, canonItems, idGroupOrd]
  rw [List.map_flatMap, List.map_flatMap, ← Multiset.coe_bind, ← Multiset.coe_bind]
  have hperm : Multiset.ofList (go (makeGroups E B)) = Multiset.ofList (makeGroups E B) :=
    Multiset.coe_eq_coe.mpr (hg _)
  rw [hperm]
  exact Multiset.bind_congr (fun g _ => canon_itemsForGroup B bo hb g)

theorem flatMap_congr_mem {α β : Type} {l : List α} {f g : α → List β}
    (h : ∀ x ∈ l, f x = g x) : l.flatMap f = l.flatMap g := by
  induction l with
  | nil => rfl
  | cons a l ih =>
    rw [List.flatMap_cons, List.flatMap_cons, h a (List.mem_cons_self a l),
      ih (fun x hx => h x (List.mem_cons_of_mem a hx))]

theorem makeGroups_key_bound (E : List (String × List String)) (B : Bindings)
    {g : List String × List String} (h : g ∈ makeGroups E B) :
    ∀ f ∈ g.1, containsKey B f = true := by
  rcases List.mem_map.mp (makeGroups_keys_sig E B h) with ⟨p, _, hp⟩
  rw [← hp]
  exact relevant_fields_bound B p.2

theorem makeGroups_key_nodup (E : List (String × List String)) (B : Bindings)
    (hnd : ∀ p ∈ E, p.2.Nodup) {g : List String × List String} (h : g ∈ makeGroups E B) :
    g.1.Nodup := by
  rcases List.mem_map.mp (makeGroups_keys_sig E B h) with ⟨p, hpE, hp⟩
  rw [← hp]
  exact relevant_fields_nodup B (hnd p hpE)

theorem makeGroups_key_sorted (E : List (String × List String)) (B : Bindings)
    {g : List String × List String} (h : g ∈ makeGroups E B) :
    List.Sorted (fun a b => strLe a b = true) g.1 := by
  rcases List.mem_map.mp (makeGroups_keys_sig E B h) with ⟨p, _, hp⟩
  rw [← hp]
  exact relevant_fields_sorted B p.2

theorem canonItems_build_claim (E : List (String × List String)) (B : Bindings)
    (go : List (List String × List String) → List (List String × List String))
    (bo : List String → Bindings → Bindings)
    (hg : ∀ l, (go l).Perm l) (hb : ∀ k b, (bo k b).Perm b)
    (hnd : ∀ p ∈ E, p.2.Nodup) :
    canonItems (build_query_items E B go bo)
      = Multiset.ofList (((makeGroups E B).flatMap (claimGroupItems B)).map canonItem) := by
  rw [canonItems_build E B go bo hg hb, build_query_items, canonItems, idGroupOrd]
  have heq : (makeGroups E B).flatMap (itemsForGroup B idBindOrd)
      = (makeGroups E B).flatMap (claimGroupItems B) :=
    flatMap_congr_mem (fun g hgm =>
      itemsForGroup_id_eq_claim B g (makeGroups_key_bound E B hgm)
        (makeGroups_key_nodup E B hnd hgm))
  rw [heq]

/-- C1: `build_query_items` groups the event types by their effective
domain-id signature restricted to the bound keys, emits per non-empty group
exactly one item per element of the Cartesian product of the bound value
sequences (one `field:value` tag per field), and per empty-signature group a
single item with no tags; on the spec's worked example (S5) the output is
exactly the two expected items.  Quantified over every `HashMap` iteration
order (`go`, `bo`); the output is compared after canonical sorting, as the
per-item tag order and item order follow the map iteration order. -/
theorem build_query_items_correct (E : List (String × List String)) (B : Bindings)
    (go : List (List String × List String) → List (List String × List String))
    (bo : List String → Bindings → Bindings)
    (hg : ∀ l, (go l).Perm l) (hb : ∀ k b, (bo k b).Perm b)
    (hnd : ∀ p ∈ E, p.2.Nodup) :
    (groupKeys (makeGroups E B)).Nodup
    ∧ (∀ p ∈ E, relevant_fields B p.2 ∈ groupKeys (makeGroups E B))
    ∧ (∀ g ∈ makeGroups E B,
        g.2 = (E.filter (fun p => relevant_fields B p.2 == g.1)).map (·.1))
    ∧ (∀ g ∈ makeGroups E B, (∀ f ∈ g.1, containsKey B f = true) ∧ g.1.Nodup)
    ∧ canonItems (build_query_items E B go bo)
        = Multiset.ofList (((makeGroups E B).flatMap (claimGroupItems B)).map canonItem)
    ∧ build_query_items exampleDomainIds exampleBindings idGroupOrd idBindOrd
        = [⟨["user_id:abc"], ["UserRegistered", "UserCompletedOnboarding"]⟩,
           ⟨["bet_id:xyz", "user_id:abc"], ["BetTracked"]⟩] := by
  refine ⟨makeGroups_keys_nodup E B, fun p hp => makeGroups_sig_mem E B hp,
    fun g hgm => makeGroups_types E B hgm,
    fun g hgm => ⟨makeGroups_key_bound E B hgm, makeGroups_key_nodup E B hnd hgm⟩,
    canonItems_build_claim E B go bo hg hb hnd, ?conc⟩
  decide

/-- Witness for C1, instantiated on the spec's worked example with reversed
iteration orders for both hash maps. -/
theorem build_query_items_correct_witness :
    canonItems (build_query_items exampleDomainIds exampleBindings
        (fun l => l.reverse) (fun _ b => b.reverse))
      = Multiset.ofList (((makeGroups exampleDomainIds exampleBindings).flatMap
          (claimGroupItems exampleBindings)).map canonItem) :=
  (build_query_items_correct exampleDomainIds exampleBindings
    (fun l => l.reverse) (fun _ b => b.reverse)
    (fun l => l.reverse_perm) (fun _ b => b.reverse_perm)
    (by decide)).2.2.2.2.1

/-- C8 counterexample: with a legal iteration order for the per-group
bindings `HashMap` (reversal, a permutation of the entries), the planner
emits the item `{tags: [user_id:abc, bet_id:xyz], types: [BetTracked]}`,
whose tags are not sorted by field name; so tag order inside an item is not
guaranteed sorted.  This refutes the claim as stated. -/
theorem planner_tags_sorted_cex :
    ¬ (∀ (go : List (List String × List String) → List (List String × List String))
        (bo : List String → Bindings → Bindings),
        (∀ l, (go l).Perm l) → (∀ k b, (bo k b).Perm b) →
        ∀ item ∈ build_query_items exampleDomainIds exampleBindings go bo,
          List.Sorted (fun a b => strLe a b = true) (item.tags.map tagField)) := by
  intro h
  have hmem : (⟨["user_id:abc", "bet_id:xyz"], ["BetTracked"]⟩ : DCBQueryItem)
      ∈ build_query_items exampleDomainIds exampleBindings idGroupOrd
          (fun _ b => b.reverse) := by decide
  have := h idGroupOrd (fun _ b => b.reverse) (fun l => List.Perm.refl l)
    (fun _ b => b.reverse_perm) _ hmem
  revert this
  decide

/-- C8 amended: the group field signatures are sorted lexicographically, but
the tag strings inside an emitted item follow the per-group bindings
`HashMap` iteration order and are not guaranteed sorted; the output is
stable only after canonical sorting (per-item tag multiset and item
multiset), which is independent of the iteration orders. -/
theorem planner_stable_up_to_order (E : List (String × List String)) (B : Bindings)
    (go : List (List String × List String) → List (List String × List String))
    (bo : List String → Bindings → Bindings)
    (hg : ∀ l, (go l).Perm l) (hb : ∀ k b, (bo k b).Perm b) :
    (∀ g ∈ makeGroups E B, List.Sorted (fun a b => strLe a b = true) g.1)
    ∧ canonItems (build_query_items E B go bo)
        = canonItems (build_query_items E B idGroupOrd idBindOrd) :=
  ⟨fun _ hgm => makeGroups_key_sorted E B hgm, canonItems_build E B go bo hg hb⟩

/-- Witness for the amended C8 on the worked example with reversed orders. -/
theorem planner_stable_up_to_order_witness :
    List.Sorted (fun a b : String => strLe a b = true) ["bet_id", "user_id"]
    ∧ canonItems (build_query_items exampleDomainIds exampleBindings
          (fun l => l.reverse) (fun _ b => b.reverse))
        = canonItems (build_query_items exampleDomainIds exampleBindings
          idGroupOrd idBindOrd) := by
  have h := planner_stable_up_to_order exampleDomainIds exampleBindings
    (fun l => l.reverse) (fun _ b => b.reverse)
    (fun l => l.reverse_perm) (fun _ b => b.reverse_perm)
  refine ⟨?s, h.2⟩
  have hm : (["bet_id", "user_id"], ["BetTracked"])
      ∈ makeGroups exampleDomainIds exampleBindings := by decide
  exact h.1 _ hm

/-- C9: the planner is deterministic for a given bindings value — any two
`HashMap` iteration orders produce, after canonical sorting, equal item
sets. -/
theorem queryPlannerDeterministic (E : List (String × List String)) (B : Bindings)
    (go1 go2 : List (List String × List String) → List (List String × List String))
    (bo1 bo2 : List String → Bindings → Bindings)
    (hg1 : ∀ l, (go1 l).Perm l) (hb1 : ∀ k b, (bo1 k b).Perm b)
    (hg2 : ∀ l, (go2 l).Perm l) (hb2 : ∀ k b, (bo2 k b).Perm b) :
    canonItems (build_query_items E B go1 bo1)
      = canonItems (build_query_items E B go2 bo2) :=
  (canonItems_build E B go1 bo1 hg1 hb1).trans
    (canonItems_build E B go2 bo2 hg2 hb2).symm

/-- Witness for C9: reversed versus canonical iteration orders on the
worked example. -/
theorem queryPlannerDeterministic_witness :
    canonItems (build_query_items exampleDomainIds exampleBindings
        (fun l => l.reverse) (fun _ b => b.reverse))
      = canonItems (build_query_items exampleDomainIds exampleBindings
        idGroupOrd idBindOrd) :=
  queryPlannerDeterministic exampleDomainIds exampleBindings
    (fun l => l.reverse) idGroupOrd (fun _ b => b.reverse) idBindOrd
    (fun l => l.reverse_perm) (fun _ b => b.reverse_perm)
    (fun l => List.Perm.refl l) (fun _ b => List.Perm.refl b)

theorem applyEvents_sublist {S Q I E V : Type} (cmd : CommandSpec S Q I E V) :
    ∀ (evs : List (DCBSequencedEvent V)) (s : S),
      ((applyEvents cmd evs s).2.map Prod.fst).Sublist (evs.map (·.position)) := by
  intro evs
  induction evs with
  | nil => intro s; simp [applyEvents]
  | cons e rest ih =>
    intro s
    cases hd : e.event.data with
    | error err => simp [applyEvents, hd]
    | ok sd =>
      cases hfe : cmd.from_event e.event.event_type sd.data with
      | none =>
        simp only [applyEvents, hd, hfe, List.map_cons]
        exact (ih s).cons e.position
      | some r =>
        cases r with
        | error err => simp [applyEvents, hd, hfe]
        | ok q =>
          simp only [applyEvents, hd, hfe, List.map_cons]
          exact (ih _).cons₂ e.position

theorem runnerApplied_sublist {Q V : Type}
    (from_event : String → V → Option (Except SerializationError Q))
    (handleOk : Nat → Q → Bool) :
    ∀ evs : List (DCBSequencedEvent V),
      (runnerApplied from_event handleOk evs).Sublist (evs.map (·.position)) := by
  intro evs
  induction evs with
  | nil => simp [runnerApplied]
  | cons e rest ih =>
    cases hd : e.event.data with
    | error err => simp [runnerApplied, hd]
    | ok sd =>
      cases hfe : from_event e.event.event_type sd.data with
      | none =>
        simp only [runnerApplied, hd, hfe, List.map_cons]
        exact ih.cons e.position
      | some r =>
        cases r with
        | error err => simp [runnerApplied, hd, hfe]
        | ok q =>
          by_cases hok : handleOk e.position q = true
          · simp only [runnerApplied, hd, hfe, hok, if_pos, List.map_cons]
            exact ih.cons₂ e.position
          · simp only [runnerApplied, hd, hfe, List.map_cons, if_neg hok]
            exact (List.nil_sublist _).cons₂ e.position

theorem nodup_of_sublist_mono {l1 l2 : List Nat} (hs : l1.Sublist l2)
    (h : List.Pairwise (fun a b => a < b) l2) : l1.Nodup :=
  (h.sublist hs).imp (fun hlt => Nat.ne_of_lt hlt)

theorem execute_applied_sublist {S Q I E V : Type} (cmd : CommandSpec S Q I E V)
    (input : I) (context : CommandContext) (now : Int)
    (readEvents : List (DCBSequencedEvent V)) (head : Option Nat)
    (appendRes : Except DCBError Nat) (uuidGen : Nat → Uuid) :
    (((execute_with cmd input context now readEvents head appendRes uuidGen).applied).map
        Prod.fst).Sublist (readEvents.map (·.position)) := by
  have hfold := applyEvents_sublist cmd readEvents cmd.dflt
  unfold execute_with
  dsimp only
  repeat' split
  all_goals first
    | exact List.nil_sublist _
    | simpa using hfold

/-- C2 counterexample: a stream that repeats position 5 twice makes both
the executor fold and the projection loop call the handler twice for the
same event — no position-based deduplication exists in either loop
(command.rs line 178 binds `position: _`; lib.rs lines 104-143 never
compare positions). -/
theorem no_dedup_cex :
    (execute_with unitCmd () (CommandContext.new 1) 0 [streamEvent 5, streamEvent 5]
        (some 5) (Except.ok 6) (fun _ => 0)).applied = [(5, ()), (5, ())]
    ∧ ¬ ((execute_with unitCmd () (CommandContext.new 1) 0 [streamEvent 5, streamEvent 5]
        (some 5) (Except.ok 6) (fun _ => 0)).applied.map Prod.fst).Nodup
    ∧ runnerApplied unitCmd.from_event (fun _ _ => true) [streamEvent 5, streamEvent 5]
        = [5, 5]
    ∧ ¬ (runnerApplied unitCmd.from_event (fun _ _ => true)
        [streamEvent 5, streamEvent 5]).Nodup := by
  refine ⟨by decide, by decide, by decide, by decide⟩

/-- C2 amended: neither loop deduplicates; each streamed occurrence is
applied exactly once in order, so positions are applied at most once
provided the stream's positions are strictly increasing (the store's
contract).  Covers the executor fold and the projection loop. -/
theorem apply_once_under_monotone_stream {S Q I E V : Type}
    (cmd : CommandSpec S Q I E V) (input : I) (context : CommandContext) (now : Int)
    (readEvents : List (DCBSequencedEvent V)) (head : Option Nat)
    (appendRes : Except DCBError Nat) (uuidGen : Nat → Uuid)
    (handleOk : Nat → Q → Bool) (stream : List (DCBSequencedEvent V))
    (hmono1 : List.Pairwise (fun a b => a < b) (readEvents.map (·.position)))
    (hmono2 : List.Pairwise (fun a b => a < b) (stream.map (·.position))) :
    (((execute_with cmd input context now readEvents head appendRes uuidGen).applied).map
        Prod.fst).Nodup
    ∧ (runnerApplied cmd.from_event handleOk stream).Nodup :=
  ⟨nodup_of_sublist_mono
      (execute_applied_sublist cmd input context now readEvents head appendRes uuidGen)
      hmono1,
   nodup_of_sublist_mono (runnerApplied_sublist cmd.from_event handleOk stream) hmono2⟩

/-- Witness for the amended C2 on a strictly increasing two-event stream. -/
theorem apply_once_under_monotone_stream_witness :
    (((execute_with unitCmd () (CommandContext.new 1) 0 [streamEvent 4, streamEvent 9]
        (some 9) (Except.ok 10) (fun _ => 0)).applied).map Prod.fst).Nodup
    ∧ (runnerApplied unitCmd.from_event (fun _ _ => true)
        [streamEvent 4, streamEvent 9]).Nodup :=
  apply_once_under_monotone_stream unitCmd () (CommandContext.new 1) 0
    [streamEvent 4, streamEvent 9] (some 9) (Except.ok 10) (fun _ => 0)
    (fun _ _ => true) [streamEvent 4, streamEvent 9] (by decide) (by decide)

theorem execute_shape {S Q I E V : Type} (cmd : CommandSpec S Q I E V) (input : I)
    (context : CommandContext) (now : Int) (readEvents : List (DCBSequencedEvent V))
    (head : Option Nat) (appendRes : Except DCBError Nat) (uuidGen : Nat → Uuid) :
    (execute_with cmd input context now readEvents head appendRes uuidGen).appendCall = none
    ∨ ∃ emitted,
        (execute_with cmd input context now readEvents head appendRes uuidGen).appendCall
          = some (encodeEmitted context now uuidGen 0 emitted, ⟨cmd.queryF input, head⟩)
        ∧ (execute_with cmd input context now readEvents head appendRes uuidGen).readQuery
          = some (cmd.queryF input) := by
  unfold execute_with
  dsimp only
  repeat' split
  all_goals first
    | exact Or.inl rfl
    | exact Or.inr ⟨_, rfl, rfl⟩

theorem execute_blocking_shape {S Q I E V : Type} (cmd : CommandSpec S Q I E V) (input : I)
    (context : CommandContext) (now : Int) (readEvents : List (DCBSequencedEvent V))
    (head : Option Nat) (appendRes : Except DCBError Nat) (uuidGen : Nat → Uuid)
    (bcImmediate : Bool) :
    ∀ tr, execute_blocking_with cmd input context now readEvents head appendRes uuidGen
        bcImmediate = some tr →
      tr.appendCall = none
      ∨ ∃ emitted,
          tr.appendCall = some (encodeEmitted context now uuidGen 0 emitted,
            ⟨cmd.queryF input, head⟩)
          ∧ tr.readQuery = some (cmd.queryF input) := by
  intro tr htr
  unfold execute_blocking_with at htr
  dsimp only at htr
  repeat' split at htr
  all_goals first
    | (cases htr; exact Or.inl rfl)
    | (cases htr; exact Or.inr ⟨_, rfl, rfl⟩)
    | exact absurd htr (by simp)

/-- C3: whenever a command execution reaches the append step, the
`fail_if_events_match` query of the append condition is the query used for
the initial read, and the condition's `after` equals the head returned by
that read (which is also the result position reported on an empty emit,
proved with C5).  Covers the suspending and the blocking executor. -/
theorem append_condition_is_read_query {S Q I E V : Type} (cmd : CommandSpec S Q I E V)
    (input : I) (context : CommandContext) (now : Int)
    (readEvents : List (DCBSequencedEvent V)) (head : Option Nat)
    (appendRes : Except DCBError Nat) (uuidGen : Nat → Uuid) (bcImmediate : Bool) :
    (∀ es cond,
      (execute_with cmd input context now readEvents head appendRes uuidGen).appendCall
          = some (es, cond) →
        cond.fail_if_events_match = cmd.queryF input
        ∧ (execute_with cmd input context now readEvents head appendRes uuidGen).readQuery
            = some cond.fail_if_events_match
        ∧ cond.after = head)
    ∧ (∀ tr es cond,
      execute_blocking_with cmd input context now readEvents head appendRes uuidGen
          bcImmediate = some tr →
        tr.appendCall = some (es, cond) →
        cond.fail_if_events_match = cmd.queryF input
        ∧ tr.readQuery = some cond.fail_if_events_match
        ∧ cond.after = head) := by
  constructor
  · intro es cond h
    rcases execute_shape cmd input context now readEvents head appendRes uuidGen with
      hnone | ⟨em, happ, hrq⟩
    · rw [hnone] at h
      exact absurd h (by simp)
    · rw [happ] at h
      have h2 := Option.some.inj h
      have hcond : (⟨cmd.queryF input, head⟩ : DCBAppendCondition) = cond :=
        congrArg Prod.snd h2
      rw [← hcond]
      exact ⟨rfl, hrq, rfl⟩
  · intro tr es cond htr h
    rcases execute_blocking_shape cmd input context now readEvents head appendRes uuidGen
        bcImmediate tr htr with hnone | ⟨em, happ, hrq⟩
    · rw [hnone] at h
      exact absurd h (by simp)
    · rw [happ] at h
      have h2 := Option.some.inj h
      have hcond : (⟨cmd.queryF input, head⟩ : DCBAppendCondition) = cond :=
        congrArg Prod.snd h2
      rw [← hcond]
      exact ⟨rfl, hrq, rfl⟩

/-- Witness for C3 on a one-event emit against an empty history. -/
theorem append_condition_is_read_query_witness :
    (⟨emitCmd.queryF (), some 0⟩ : DCBAppendCondition).fail_if_events_match
        = emitCmd.queryF ()
    ∧ (execute_with emitCmd () (CommandContext.new 7) 3 [] (some 0) (Except.ok 1)
        (fun _ => 9)).readQuery
        = some (⟨emitCmd.queryF (), some 0⟩ : DCBAppendCondition).fail_if_events_match
    ∧ (⟨emitCmd.queryF (), some 0⟩ : DCBAppendCondition).after = some 0 :=
  (append_condition_is_read_query emitCmd () (CommandContext.new 7) 3 [] (some 0)
    (Except.ok 1) (fun _ => 9) true).1 _ _ rfl

/-- C5: when `handle` yields an empty `Emit` (and the earlier steps
succeed), no append call is issued and the result is
`{position = head, events = []}`, so the store is left unchanged — in both
executors. -/
theorem empty_emit_no_append {S Q I E V : Type} (cmd : CommandSpec S Q I E V)
    (input : I) (context : CommandContext) (now : Int)
    (readEvents : List (DCBSequencedEvent V)) (head : Option Nat)
    (appendRes : Except DCBError Nat) (uuidGen : Nat → Uuid) (s : S)
    (hv : cmd.validate input = Except.ok ())
    (hf : (applyEvents cmd readEvents cmd.dflt).1 = Except.ok s)
    (hh : cmd.handleF s input = Except.ok ⟨[]⟩)
    (hb : cmd.before_commit s input ⟨[]⟩ = Except.ok ()) :
    (execute_with cmd input context now readEvents head appendRes uuidGen).appendCall = none
    ∧ (execute_with cmd input context now readEvents head appendRes uuidGen).result
        = Except.ok ⟨head, []⟩
    ∧ (execute_blocking_with cmd input context now readEvents head appendRes uuidGen
        true).map (·.appendCall) = some none
    ∧ (execute_blocking_with cmd input context now readEvents head appendRes uuidGen
        true).map (·.result) = some (Except.ok ⟨head, []⟩) := by
  simp [execute_with, execute_blocking_with, hv, hf, hh, hb, encodeEmitted]

/-- Witness for C5: the empty-emitting command on an empty history. -/
theorem empty_emit_no_append_witness :
    (execute_with unitCmd () (CommandContext.new 2) 0 [] (some 7) (Except.ok 9)
        (fun _ => 0)).appendCall = none
    ∧ (execute_with unitCmd () (CommandContext.new 2) 0 [] (some 7) (Except.ok 9)
        (fun _ => 0)).result = Except.ok ⟨some 7, []⟩
    ∧ (execute_blocking_with unitCmd () (CommandContext.new 2) 0 [] (some 7) (Except.ok 9)
        (fun _ => 0) true).map (·.appendCall) = some none
    ∧ (execute_blocking_with unitCmd () (CommandContext.new 2) 0 [] (some 7) (Except.ok 9)
        (fun _ => 0) true).map (·.result) = some (Except.ok ⟨some 7, []⟩) :=
  empty_emit_no_append unitCmd () (CommandContext.new 2) 0 [] (some 7) (Except.ok 9)
    (fun _ => 0) () rfl rfl rfl rfl

theorem mem_encodeEmitted {V : Type} (context : CommandContext) (now : Int)
    (uuidGen : Nat → Uuid) :
    ∀ (i : Nat) (l : List (EmittedEvent V)) (ev : DCBEvent V),
      ev ∈ encodeEmitted context now uuidGen i l →
      ∃ j e0, ev = encode_to_dcb_event e0 (context.into_event_envelope now) (uuidGen j) := by
  intro i l
  induction l generalizing i with
  | nil => intro ev h; simp [encodeEmitted] at h
  | cons e rest ih =>
    intro ev h
    simp only [encodeEmitted] at h
    rcases List.mem_cons.mp h with h | h
    · exact ⟨i, e, h⟩
    · exact ih (i + 1) ev h

/-- C4: `CommandContext::new` uses one fresh UUID as both `command_id` and
`correlation_id` with no `triggered_by`; `with_correlation_id` keeps the
given correlation id with a fresh `command_id`; `triggered_by_event`
additionally records the triggering event id; and every event appended by
the executor carries an envelope with `causation_id = command_id`,
`correlation_id` equal to the context's, `triggered_by` equal to the
context's, and the emission timestamp. -/
theorem envelope_integrity :
    (∀ id : Uuid, (CommandContext.new id).command_id = id
      ∧ (CommandContext.new id).correlation_id = id
      ∧ (CommandContext.new id).triggered_by = none)
    ∧ (∀ cid fresh : Uuid,
        (CommandContext.with_correlation_id cid fresh).command_id = fresh
        ∧ (CommandContext.with_correlation_id cid fresh).correlation_id = cid
        ∧ (CommandContext.with_correlation_id cid fresh).triggered_by = none)
    ∧ (∀ eid cid fresh : Uuid,
        (CommandContext.triggered_by_event eid cid fresh).command_id = fresh
        ∧ (CommandContext.triggered_by_event eid cid fresh).correlation_id = cid
        ∧ (CommandContext.triggered_by_event eid cid fresh).triggered_by = some eid)
    ∧ (∀ (S Q I E V : Type) (cmd : CommandSpec S Q I E V) (input : I)
        (context : CommandContext) (now : Int) (readEvents : List (DCBSequencedEvent V))
        (head : Option Nat) (appendRes : Except DCBError Nat) (uuidGen : Nat → Uuid)
        (es : List (DCBEvent V)) (cond : DCBAppendCondition) (ev : DCBEvent V),
        (execute_with cmd input context now readEvents head appendRes uuidGen).appendCall
            = some (es, cond) →
        ev ∈ es →
        ∃ sd, ev.data = Except.ok sd
          ∧ sd.causation_id = context.command_id
          ∧ sd.correlation_id = context.correlation_id
          ∧ sd.triggered_by = context.triggered_by
          ∧ sd.timestamp = now) := by
  refine ⟨fun id => ⟨rfl, rfl, rfl⟩, fun cid fresh => ⟨rfl, rfl, rfl⟩,
    fun eid cid fresh => ⟨rfl, rfl, rfl⟩, ?app⟩
  intro S Q I E V cmd input context now readEvents head appendRes uuidGen es cond ev happ hev
  rcases execute_shape cmd input context now readEvents head appendRes uuidGen with
    hnone | ⟨em, happ2, _⟩
  · rw [hnone] at happ
    exact absurd happ (by simp)
  · rw [happ2] at happ
    have hes : encodeEmitted context now uuidGen 0 em = es :=
      congrArg Prod.fst (Option.some.inj happ)
    rw [← hes] at hev
    rcases mem_encodeEmitted context now uuidGen 0 em ev hev with ⟨j, e0, rfl⟩
    exact ⟨_, rfl, rfl, rfl, rfl, rfl⟩

/-- Witness for C4: the single event appended by `emitCmd`. -/
theorem envelope_integrity_witness :
    ∃ sd, (encode_to_dcb_event
        (⟨"E", (), [("user_id", DomainIdValue.value "abc")]⟩ : EmittedEvent Unit)
        ((CommandContext.new 7).into_event_envelope 3) 9).data = Except.ok sd
      ∧ sd.causation_id = (CommandContext.new 7).command_id
      ∧ sd.correlation_id = (CommandContext.new 7).correlation_id
      ∧ sd.triggered_by = (CommandContext.new 7).triggered_by
      ∧ sd.timestamp = 3 :=
  envelope_integrity.2.2.2 Unit Unit Unit Unit Unit emitCmd () (CommandContext.new 7) 3 []
    none (Except.ok 1) (fun _ => 9) _ _ _ rfl (List.mem_singleton.mpr rfl)

/-- C6: `should_flush` fires in replay mode (entered when
`position ≤ head` under Rust's `Option` order) exactly when the replay
event count or replay time interval is reached, in live mode exactly when
the live thresholds are reached; defaults are live = (1 event, 1 s) and
replay = (500 events, 10 s). -/
theorem flush_policy (c : FlushConfig) (esf elapsed : Nat) (p h : Option Nat) (a b : Nat) :
    (c.should_flush esf elapsed true = true
      ↔ (c.replay_events_interval ≤ esf ∨ c.replay_time_interval ≤ elapsed))
    ∧ (c.should_flush esf elapsed false = true
      ↔ (c.live_events_interval ≤ esf ∨ c.live_time_interval ≤ elapsed))
    ∧ flushDecision c p h esf elapsed = c.should_flush esf elapsed (optionLe p h)
    ∧ optionLe none h = true
    ∧ optionLe (some a) none = false
    ∧ (optionLe (some a) (some b) = true ↔ a ≤ b)
    ∧ FlushConfig.dfltConfig.live_events_interval = 1
    ∧ FlushConfig.dfltConfig.live_time_interval = 1000
    ∧ FlushConfig.dfltConfig.replay_events_interval = 500
    ∧ FlushConfig.dfltConfig.replay_time_interval = 10000 := by
  refine ⟨?r, ?l, rfl, rfl, rfl, ?o, rfl, rfl, rfl, rfl⟩
  · simp [FlushConfig.should_flush]
  · simp [FlushConfig.should_flush]
  · simp [optionLe]

theorem map_ite_id {α : Type} (p : α → Bool) (f : α → α) :
    ∀ t : List α, (∀ r ∈ t, p r = false) →
      t.map (fun r => if p r then f r else r) = t := by
  intro t
  induction t with
  | nil => intro _; rfl
  | cons a t ih =>
    intro h
    rw [List.map_cons]
    rw [ih (fun r hr => h r (List.mem_cons_of_mem a hr))]
    simp [h a (List.mem_cons_self a t)]

/-- C7: `CheckpointTable::save` with no expected position performs the
INSERT and propagates the duplicate-key error unchanged when a row for the
projection id exists; with an expected position it performs the
compare-and-swap UPDATE, errors with `RowNotFound` exactly when zero rows
were affected, and leaves the table unchanged in that case. -/
theorem checkpoint_save_cas (t : CkTable) (pid : String) (e pos : Nat) :
    (t.any (fun r => r.1 == pid) = true →
      checkpointSave t pid none pos
        = (t, Except.error
            (SqlxError.Database "duplicate key value violates unique constraint")))
    ∧ (t.any (fun r => r.1 == pid) = false →
      checkpointSave t pid none pos = (t ++ [(pid, Int.ofNat pos)], Except.ok ()))
    ∧ ((checkpointSave t pid (some e) pos).2 = Except.error SqlxError.RowNotFound
      ↔ (t.filter (fun r => r.1 == pid && r.2 == Int.ofNat e)).length = 0)
    ∧ ((t.filter (fun r => r.1 == pid && r.2 == Int.ofNat e)).length = 0 →
      checkpointSave t pid (some e) pos = (t, Except.error SqlxError.RowNotFound))
    ∧ (checkpointSave t pid (some e) pos).1
        = t.map (fun r =>
            if r.1 == pid && r.2 == Int.ofNat e then (r.1, Int.ofNat pos) else r) := by
  have hall : (t.filter (fun r => r.1 == pid && r.2 == Int.ofNat e)).length = 0 →
      ∀ r ∈ t, (r.1 == pid && r.2 == Int.ofNat e) = false := by
    intro h r hr
    rw [List.length_eq_zero] at h
    by_contra hc
    have : r ∈ t.filter (fun r => r.1 == pid && r.2 == Int.ofNat e) :=
      List.mem_filter.mpr ⟨hr, by simpa using hc⟩
    rw [h] at this
    simp at this
  refine ⟨?i1, ?i2, ?u1, ?u2, ?u3⟩
  · intro h
    simp [checkpointSave, ckInsert, h]
  · intro h
    simp [checkpointSave, ckInsert, h]
  · simp only [checkpointSave, ckUpdate]
    by_cases h : (t.filter (fun r => r.1 == pid && r.2 == Int.ofNat e)).length = 0
    · rw [if_pos (by simpa using h)]
      exact iff_of_true rfl h
    · rw [if_neg (by simpa using h)]
      exact iff_of_false (by simp) h
  · intro h
    simp only [checkpointSave, ckUpdate, h]
    rw [map_ite_id _ _ t (hall h)]
    simp
  · simp only [checkpointSave, ckUpdate]
    split <;> rfl

/-- Witness for C7: duplicate-key INSERT on an existing row, and a CAS
UPDATE against a stale expected position leaving the row unchanged. -/
theorem checkpoint_save_cas_witness :
    checkpointSave [("p", (3 : Int))] "p" none 5
      = ([("p", (3 : Int))], Except.error
          (SqlxError.Database "duplicate key value violates unique constraint"))
    ∧ checkpointSave [("p", (3 : Int))] "p" (some 9) 7
      = ([("p", (3 : Int))], Except.error SqlxError.RowNotFound) :=
  ⟨(checkpoint_save_cas [("p", (3 : Int))] "p" 9 5).1 (by decide),
   (checkpoint_save_cas [("p", (3 : Int))] "p" 9 7).2.2.2.1 (by decide)⟩

/-- C10: when `handler.post_commit` fails after the transaction committed,
`ProjectionRunner::flush` surfaces the handler error while leaving
`events_since_flush`, `last_flushed_at` and `last_flushed_position`
unchanged — the checkpoint row was durably advanced, yet the next flush
will compare-and-swap against the stale `last_flushed_position`. -/
theorem post_commit_error_preserves_counters {E : Type} (s : RunnerState) (now : Nat)
    (p : Nat) (err : E) (hp : s.position = some p) (ht : s.transactionOpen = true) :
    (ProjectionRunner.flush s now (Except.ok ()) (Except.ok ()) (Except.ok ())
        (Except.error err)).result = Except.error (ProjectionError.Handler err)
    ∧ (ProjectionRunner.flush s now (Except.ok ()) (Except.ok ()) (Except.ok ())
        (Except.error err)).committed = true
    ∧ (ProjectionRunner.flush s now (Except.ok ()) (Except.ok ()) (Except.ok ())
        (Except.error err)).state.events_since_flush = s.events_since_flush
    ∧ (ProjectionRunner.flush s now (Except.ok ()) (Except.ok ()) (Except.ok ())
        (Except.error err)).state.last_flushed_at = s.last_flushed_at
    ∧ (ProjectionRunner.flush s now (Except.ok ()) (Except.ok ()) (Except.ok ())
        (Except.error err)).state.last_flushed_position = s.last_flushed_position := by
  simp [ProjectionRunner.flush, hp, ht]

/-- Witness for C10 on a concrete runner state. -/
theorem post_commit_error_preserves_counters_witness :
    (ProjectionRunner.flush (⟨some 10, some 20, 4, some 6, 100, true⟩ : RunnerState) 200
        (Except.ok ()) (Except.ok ()) (Except.ok ())
        (Except.error "post_commit failed")).result
      = Except.error (ProjectionError.Handler "post_commit failed")
    ∧ (ProjectionRunner.flush (⟨some 10, some 20, 4, some 6, 100, true⟩ : RunnerState) 200
        (Except.ok ()) (Except.ok ()) (Except.ok ())
        (Except.error "post_commit failed")).committed = true
    ∧ (ProjectionRunner.flush (⟨some 10, some 20, 4, some 6, 100, true⟩ : RunnerState) 200
        (Except.ok ()) (Except.ok ()) (Except.ok ())
        (Except.error "post_commit failed")).state.events_since_flush = 4
    ∧ (ProjectionRunner.flush (⟨some 10, some 20, 4, some 6, 100, true⟩ : RunnerState) 200
        (Except.ok ()) (Except.ok ()) (Except.ok ())
        (Except.error "post_commit failed")).state.last_flushed_at = 100
    ∧ (ProjectionRunner.flush (⟨some 10, some 20, 4, some 6, 100, true⟩ : RunnerState) 200
        (Except.ok ()) (Except.ok ()) (Except.ok ())
        (Except.error "post_commit failed")).state.last_flushed_position = some 6 :=
  post_commit_error_preserves_counters (⟨some 10, some 20, 4, some 6, 100, true⟩ : RunnerState)
    200 10 "post_commit failed" rfl rfl

end ESRuntime
